import Mathlib

/-!
Verification of the thumbnailer's budget-constrained quality search and of
its PSNR comparison utility.

The sources at hand are src/thumbnailer.h (class declaration, status codes,
method list), src/thumbnailer_util.cc (AnimData2Pictures, AnimData2PSNR,
CompareThumbnail) and src/main.cc (the CLI driver).  The bodies of the
Thumbnailer strategy member functions are not part of the sources, only
their declarations in src/thumbnailer.h; those are modelled here from the
specification, and each such definition says so in its doc comment.

Raw pictures are abstracted as `Nat` identifiers, encoded sizes as `Nat`,
PSNR scores as `Rat`; the external codec (encoder, distortion metric,
animation decoder) appears as oracle functions passed to each model.
-/

set_option maxHeartbeats 1000000

/-- Status codes of the Thumbnailer (src/thumbnailer.h, lines 57-68); the
utility in thumbnailer_util.cc uses the kOk / kMemoryError / kGenericError
subset. -/
inductive Status where
  | kOk
  | kMemoryError
  | kImageFormatError
  | kByteBudgetError
  | kStatsError
  | kWebPMuxError
  | kSlopeOptimError
  | kGenericError
  deriving DecidableEq

/-- Generation methods (src/thumbnailer.h, lines 70-76). -/
inductive Method where
  | kEqualQuality
  | kEqualPSNR
  | kNearllEqual
  | kNearllDiff
  | kSlopeOptim
  deriving DecidableEq

/-- PSNR summary of one animation, mirroring ThumbnailerUtil::ThumbnailStatPSNR
(fields filled in by AnimData2PSNR, thumbnailer_util.cc lines 88-95). -/
structure ThumbnailStatPSNR where
  psnr : List Rat
  min_psnr : Rat
  max_psnr : Rat
  mean_psnr : Rat
  median_psnr : Rat
  deriving DecidableEq

/-- PSNR difference summary, mirroring ThumbnailerUtil::ThumbnailDiffPSNR
(fields filled in by CompareThumbnail, thumbnailer_util.cc lines 121-133). -/
structure ThumbnailDiffPSNR where
  psnr_diff : List Rat
  max_psnr_decrease : Rat
  max_psnr_increase : Rat
  sum_psnr_diff : Rat
  mean_psnr_diff : Rat
  median_psnr_diff : Rat
  deriving DecidableEq

/-- std::sort on a vector of PSNR values (the total order on `Rat`). -/
def sortRat (l : List Rat) : List Rat := List.insertionSort (· ≤ ·) l

/-- The frame loop of AnimData2PSNR (thumbnailer_util.cc, lines 73-83): the
external distortion metric is called on each (original, decoded) pair and its
PSNR-all score pushed, stopping at the first failing frame (the loop's
break). -/
def collectPSNR (distortion : Nat → Nat → Option Rat) :
    List (Nat × Nat) → List Rat
  | [] => []
  | (o, p) :: rest =>
    match distortion o p with
    | none => []
    | some v => v :: collectPSNR distortion rest

/-- ThumbnailerUtil::AnimData2PSNR (thumbnailer_util.cc, lines 57-98).
`data2pics` stands for the outcome of AnimData2Pictures (lines 19-55) on the
`webp_data` argument, which is entirely driven by the external animation
decoder; `stats_null` models passing a NULL `stats` pointer; `stats0` is the
caller-provided *stats object that the original updates in place. -/
def animData2PSNR (data2pics : Except Status (List Nat))
    (distortion : Nat → Nat → Option Rat) (original_pics : List Nat)
    (stats_null : Bool) (stats0 : ThumbnailStatPSNR) :
    Status × ThumbnailStatPSNR :=
  if stats_null then (Status.kMemoryError, stats0)
  else
    match data2pics with
    | .error e => (e, stats0)
    | .ok pics =>
      if pics.length ≠ original_pics.length then (Status.kGenericError, stats0)
      else
        let pic_count := original_pics.length
        let stats1 := { stats0 with
          psnr := stats0.psnr ++ collectPSNR distortion (original_pics.zip pics) }
        if stats1.psnr.length ≠ pic_count then (Status.kMemoryError, stats1)
        else
          let new_psnr := sortRat stats1.psnr
          (Status.kOk,
            { stats1 with
              min_psnr := new_psnr.headD 0
              max_psnr := new_psnr.getLastD 0
              mean_psnr := new_psnr.sum / (pic_count : Rat)
              median_psnr := new_psnr.getD (pic_count / 2) 0 })

/-- A default-constructed ThumbnailStatPSNR local, as in CompareThumbnail. -/
def emptyStatPSNR : ThumbnailStatPSNR := ⟨[], 0, 0, 0, 0⟩

/-- ThumbnailerUtil::CompareThumbnail (thumbnailer_util.cc, lines 100-136).
`data2pics1` and `data2pics2` are the AnimData2Pictures outcomes for the two
WebPData arguments; `diff_null` models passing a NULL `diff` pointer and
`diff0` the caller-provided *diff object. -/
def compareThumbnail (data2pics1 data2pics2 : Except Status (List Nat))
    (distortion : Nat → Nat → Option Rat) (original_pics : List Nat)
    (diff_null : Bool) (diff0 : ThumbnailDiffPSNR) :
    Status × ThumbnailDiffPSNR :=
  if original_pics.isEmpty then (Status.kOk, diff0)
  else if diff_null then (Status.kMemoryError, diff0)
  else
    let r1 := animData2PSNR data2pics1 distortion original_pics false emptyStatPSNR
    if r1.1 ≠ Status.kOk then (r1.1, diff0)
    else
      let r2 := animData2PSNR data2pics2 distortion original_pics false emptyStatPSNR
      if r2.1 ≠ Status.kOk then (r2.1, diff0)
      else
        let pic_count := original_pics.length
        let diff1 := { diff0 with
          psnr_diff := diff0.psnr_diff ++
            List.zipWith (fun a b => b - a) r1.2.psnr r2.2.psnr }
        let psnr_diff := sortRat diff1.psnr_diff
        (Status.kOk,
          { diff1 with
            max_psnr_decrease := psnr_diff.headD 0
            max_psnr_increase := psnr_diff.getLastD 0
            sum_psnr_diff := psnr_diff.sum
            mean_psnr_diff := psnr_diff.sum / (pic_count : Rat)
            median_psnr_diff := psnr_diff.getD (pic_count / 2) 0 })

/-- Modelled from the spec: Thumbnailer::GetPictureStats, declared at
src/thumbnailer.h lines 116-119 with its definition not in the sources.
Spec 4.1: return the cached (size, PSNR) sample for the requested quality
when the per-frame table `lossy_data` (indexed by quality, sentinel (-1, -1)
per src/thumbnailer.h lines 97-100) already holds one; otherwise invoke the
external encoder (`encode`, failing with kMemoryError) and the external
distortion metric (`distort`, failing with kStatsError), store the fresh
sample in the table and return it.  The last component counts the external
encoder and distortion invocations performed by the call. -/
def getPictureStats (encode : Nat → Option Nat) (distort : Nat → Option Rat)
    (lossy_data : Nat → Int × Rat) (quality : Nat) :
    Except Status ((Int × Rat) × (Nat → Int × Rat) × Nat) :=
  if (lossy_data quality).1 = -1 then
    match encode quality with
    | none => .error Status.kMemoryError
    | some sz =>
      match distort quality with
      | none => .error Status.kStatsError
      | some p =>
        let sample : Int × Rat := ((sz : Int), p)
        .ok (sample, Function.update lossy_data quality sample, 2)
  else .ok (lossy_data quality, lossy_data, 0)

/-- Modelled from the spec: the RD data one Frame Record exposes to the budget
search strategies (spec section 3).  `sizeQ` and `psnrQ` give the encoded
size and PSNR at each lossy quality 0..100, `nlSizeS` and `nlPSNRS` at each
near-lossless strength; all four stand for the external encoder's responses
on this frame's raw picture. -/
structure FrameRD where
  sizeQ : Nat → Nat
  psnrQ : Nat → Rat
  nlSizeS : Nat → Nat
  nlPSNRS : Nat → Rat

/-- A committed per-frame encoding: lossy at a quality, or near-lossless at a
pre-processing strength (spec sections 3 and 4.4). -/
inductive FrameEnc where
  | lossy (q : Nat)
  | nearLossless (s : Nat)
  deriving DecidableEq

/-- Encoded size of a frame under a committed encoding. -/
def encSizeOf (f : FrameRD) : FrameEnc → Nat
  | .lossy q => f.sizeQ q
  | .nearLossless s => f.nlSizeS s

/-- PSNR of a frame under a committed encoding. -/
def encPSNROf (f : FrameRD) : FrameEnc → Rat
  | .lossy q => f.psnrQ q
  | .nearLossless s => f.nlPSNRS s

/-- Sum of the committed encoded sizes, frame by frame. -/
def sumEnc : List FrameRD → List FrameEnc → Nat
  | f :: fs, c :: cs => encSizeOf f c + sumEnc fs cs
  | _, _ => 0

/-- Modelled from the spec: the Animation Assembler's measured container size
(spec 4.5) — a fixed container overhead plus the committed per-frame
payloads. -/
def totalSize (overhead : Nat) (frames : List FrameRD) (cs : List FrameEnc) :
    Nat :=
  overhead + sumEnc frames cs

/-- All-lossy commitments from a per-frame quality assignment. -/
def lossyCommits (qs : List Nat) : List FrameEnc := qs.map FrameEnc.lossy

/-- Total assembled size when every frame is encoded at one shared lossy
quality. -/
def equalS (overhead : Nat) (frames : List FrameRD) (q : Nat) : Nat :=
  totalSize overhead frames (List.replicate frames.length (FrameEnc.lossy q))

/-- Modelled from the spec: the Equal-Quality binary search on integer
quality (spec 4.2) — probe the midpoint, keep the upper half when the probe
still fits the budget (so ties favor the higher quality), stop when the
interval collapses to one integer.  The fuel argument bounds the iteration
count (spec section 5). -/
def bsearchFits (S : Nat → Nat) (budget : Nat) : Nat → Nat → Nat → Nat
  | 0, lo, _ => lo
  | fuel + 1, lo, hi =>
    if lo < hi then
      let mid := (lo + hi + 1) / 2
      if S mid ≤ budget then bsearchFits S budget fuel mid hi
      else bsearchFits S budget fuel lo (mid - 1)
    else lo

/-- Modelled from the spec: Thumbnailer::GenerateAnimationEqualQuality,
declared at src/thumbnailer.h lines 126-130 with its definition not in the
sources.  Spec 4.2: binary search for the largest global quality fitting the
byte budget, the lower bound starting at the configured minimum lossy
quality; kByteBudgetError when even the minimum exceeds the budget; on
success every frame's final_quality is the winning value. -/
def generateAnimationEqualQuality (overhead : Nat) (frames : List FrameRD)
    (budget minQ : Nat) : Except Status (Nat × List FrameEnc) :=
  if budget < equalS overhead frames minQ then .error Status.kByteBudgetError
  else
    let q := bsearchFits (equalS overhead frames) budget 101 minQ 100
    .ok (q, List.replicate frames.length (FrameEnc.lossy q))

/-- Per-frame PSNR values at a per-frame quality assignment. -/
def framePSNRs (frames : List FrameRD) (qs : List Nat) : List Rat :=
  List.zipWith (fun f q => f.psnrQ q) frames qs

/-- Helper of `minIdx`: running first-minimum scan. -/
def minIdxGo : List Rat → Nat → Rat → Nat → Nat
  | [], _, _, best => best
  | x :: rest, i, bv, best =>
    if x < bv then minIdxGo rest (i + 1) x i else minIdxGo rest (i + 1) bv best

/-- Index of the first minimum of a list of PSNR values. -/
def minIdx : List Rat → Nat
  | [] => 0
  | x :: rest => minIdxGo rest 1 x 0

/-- Maximum of a list of PSNR values (0 when empty). -/
def maxRat : List Rat → Rat
  | [] => 0
  | x :: rest => rest.foldl (fun a b => if a < b then b else a) x

/-- Modelled from the spec: the smallest quality increment for frame `i`
(spec 4.3) that raises its PSNR while the assembled total still fits the
budget. -/
def findRaise (overhead : Nat) (frames : List FrameRD) (budget : Nat)
    (qs : List Nat) (i : Nat) (f : FrameRD) (q0 : Nat) : Option Nat :=
  ((List.range (100 - q0)).map (fun k => q0 + 1 + k)).find?
    (fun q => decide (f.psnrQ q0 < f.psnrQ q) &&
      decide (totalSize overhead frames (lossyCommits (qs.set i q)) ≤ budget))

/-- Modelled from the spec: one Equal-PSNR balancing step (spec 4.3) — pick
the frame with the lowest PSNR, and while it is still below the group target
raise it by the smallest feasible quality increment; `none` when no further
balancing is feasible. -/
def balanceStep (overhead : Nat) (frames : List FrameRD) (budget : Nat)
    (qs : List Nat) : Option (List Nat) :=
  let ps := framePSNRs frames qs
  let i := minIdx ps
  match frames.get? i, qs.get? i with
  | some f, some q0 =>
    if f.psnrQ q0 < maxRat ps then
      match findRaise overhead frames budget qs i f q0 with
      | some q => some (qs.set i q)
      | none => none
    else none
  | _, _ => none

/-- Bounded iteration of the balancing step (spec section 5: bounded
iteration counts). -/
def balanceLoop (overhead : Nat) (frames : List FrameRD) (budget : Nat) :
    Nat → List Nat → List Nat
  | 0, qs => qs
  | fuel + 1, qs =>
    match balanceStep overhead frames budget qs with
    | none => qs
    | some qs2 => balanceLoop overhead frames budget fuel qs2

/-- Modelled from the spec: Thumbnailer::GenerateAnimationEqualPSNR, declared
at src/thumbnailer.h lines 132-135 with its definition not in the sources.
Spec 4.3: start from the Equal-Quality result, then repeatedly raise the
lowest-PSNR frame toward the group target while the total fits the budget;
on failure to find any feasible balance the Equal-Quality result is kept, so
the only error statuses are those of GenerateAnimationEqualQuality itself. -/
def generateAnimationEqualPSNR (overhead : Nat) (frames : List FrameRD)
    (budget minQ : Nat) : Except Status (List Nat) :=
  match generateAnimationEqualQuality overhead frames budget minQ with
  | .error e => .error e
  | .ok (q, _) =>
    .ok (balanceLoop overhead frames budget ((frames.length + 1) * 101)
      (List.replicate frames.length q))

/-- Modelled from the spec: near-lossless refinement of one frame (spec 4.4
step 3) — strengths are tried coarsest to finest and the frame's committed
encoding is replaced by each strength that still fits the budget and
improves this frame's PSNR (a frame that does not benefit keeps its lossy
encoding). -/
def nlRefineFrame (overhead budget doneSize restSize : Nat) (f : FrameRD)
    (levels : List Nat) (c : FrameEnc) : FrameEnc :=
  levels.foldl
    (fun cur s =>
      if overhead + doneSize + f.nlSizeS s + restSize ≤ budget ∧
          encPSNROf f cur < f.nlPSNRS s
      then FrameEnc.nearLossless s else cur) c

/-- Helper of `nearLosslessDiff`: frames in order, carrying the size of the
already-refined prefix. -/
def nlDiffGo (overhead budget : Nat) (levels : List Nat) :
    Nat → List FrameRD → List FrameEnc → List FrameEnc
  | _, [], _ => []
  | _, _ :: _, [] => []
  | doneSize, f :: fs, c :: cs =>
    let c2 := nlRefineFrame overhead budget doneSize (sumEnc fs cs) f levels c
    c2 :: nlDiffGo overhead budget levels (doneSize + encSizeOf f c2) fs cs

/-- Modelled from the spec: Thumbnailer::NearLosslessDiff (declared at
src/thumbnailer.h line 142; definition not in the sources; spec 4.4 step 3,
Diff variant): per-frame independent near-lossless strengths; on any failure
the latest lossy encoding of a frame is kept. -/
def nearLosslessDiff (overhead : Nat) (frames : List FrameRD) (budget : Nat)
    (levels : List Nat) (cs : List FrameEnc) : List FrameEnc :=
  nlDiffGo overhead budget levels 0 frames cs

/-- Shared-strength candidate: every frame that benefits switches to
near-lossless strength `s`. -/
def nlEqualApply (s : Nat) : List FrameRD → List FrameEnc → List FrameEnc :=
  List.zipWith (fun f c =>
    if encPSNROf f c < f.nlPSNRS s then FrameEnc.nearLossless s else c)

/-- Modelled from the spec: Thumbnailer::NearLosslessEqual (declared at
src/thumbnailer.h lines 144-149; definition not in the sources; spec 4.4
step 3, Equal variant): one shared strength for all near-lossless frames,
the finest candidate whose assembled total still fits the budget; on failure
the lossy result is returned unchanged. -/
def nearLosslessEqual (overhead : Nat) (frames : List FrameRD) (budget : Nat)
    (levels : List Nat) (cs : List FrameEnc) : List FrameEnc :=
  levels.foldl
    (fun cur s =>
      let cand := nlEqualApply s frames cur
      if totalSize overhead frames cand ≤ budget then cand else cur) cs

/-- Modelled from the spec: Thumbnailer::ComputeSlope (declared at
src/thumbnailer.h lines 165-166; definition not in the sources) — the
RD-curve slope between two lossy qualities.  `Rat` division is total, a zero
size difference giving slope 0. -/
def computeSlope (f : FrameRD) (lowQ highQ : Nat) : Rat :=
  (f.psnrQ highQ - f.psnrQ lowQ) / ((f.sizeQ highQ : Rat) - (f.sizeQ lowQ : Rat))

/-- Modelled from the spec: the leftmost lossy quality whose PSNR is within
`dPSNR` of quality 100 (spec 4.4 step 1), found by walking down from 100
while the PSNR drop stays within `dPSNR` (the RD curve is assumed monotone,
spec section 3). -/
def findQhiGo (f : FrameRD) (dPSNR : Rat) (q : Nat) : Nat :=
  if h : q = 0 then 0
  else if f.psnrQ 100 - f.psnrQ (q - 1) ≤ dPSNR then findQhiGo f dPSNR (q - 1)
  else q
termination_by q
decreasing_by omega

/-- Entry point of the leftmost-point search at quality 100. -/
def findQhi (f : FrameRD) (dPSNR : Rat) : Nat := findQhiGo f dPSNR 100

/-- Modelled from the spec: Thumbnailer::FindMedianSlope (declared at
src/thumbnailer.h lines 156-160; definition not in the sources; spec 4.4
step 1): per-frame slopes near the top of the RD curve, then their median;
with no frames no median exists and the slope search fails with
kSlopeOptimError. -/
def findMedianSlope (frames : List FrameRD) (dPSNR : Rat) : Except Status Rat :=
  match frames with
  | [] => .error Status.kSlopeOptimError
  | _ =>
    let slopes := frames.map (fun f => computeSlope f (findQhi f dPSNR) 100)
    .ok ((sortRat slopes).getD (slopes.length / 2) 0)

/-- Modelled from the spec: scan of the qualities minQ..100 for the one whose
local RD slope is closest to the median (spec 4.4 step 2), preferring the
lower quality on ties. -/
def slopeTargetQ (f : FrameRD) (median : Rat) (minQ : Nat) : Nat :=
  ((List.range (101 - minQ)).map (fun k => minQ + k)).foldl
    (fun best q =>
      if |computeSlope f q 100 - median| < |computeSlope f best 100 - median|
      then q else best) minQ

/-- Sum of the per-frame sizes at one shared quality (the all-minimum floor
of the greedy allocation). -/
def minTailSize (frames : List FrameRD) (q : Nat) : Nat :=
  (frames.map (fun f => f.sizeQ q)).sum

/-- Modelled from the spec: greedy slope-targeted allocation (spec 4.4 step
2) — frames in order receive their slope-target quality when the running
total, with every remaining frame floored at the minimum quality, still fits
the budget; otherwise they are floored at the minimum quality. -/
def slopeAllocGo (overhead budget minQ : Nat) (median : Rat) :
    Nat → List FrameRD → List FrameEnc
  | _, [] => []
  | doneSize, f :: rest =>
    let target := slopeTargetQ f median minQ
    let q :=
      if overhead + doneSize + f.sizeQ target + minTailSize rest minQ ≤ budget
      then target else minQ
    FrameEnc.lossy q ::
      slopeAllocGo overhead budget minQ median (doneSize + f.sizeQ q) rest

/-- Modelled from the spec: Thumbnailer::LossyEncodeSlopeOptim (declared at
src/thumbnailer.h line 171; definition not in the sources; spec 4.4 steps
1-2 and section 7): kByteBudgetError when even the minimum lossy quality
exceeds the budget, otherwise a per-frame lossy quality chosen by
median-slope targeting. -/
def lossyEncodeSlopeOptim (overhead : Nat) (frames : List FrameRD)
    (budget minQ : Nat) (dPSNR : Rat) : Except Status (List FrameEnc) :=
  if budget < equalS overhead frames minQ then .error Status.kByteBudgetError
  else
    match findMedianSlope frames dPSNR with
    | .error e => .error e
    | .ok med => .ok (slopeAllocGo overhead budget minQ med 0 frames)

/-- Modelled from the spec: one step of the extra lossy re-encode (spec 4.4
step 4) — the first frame whose lossy quality can be raised by one with a
PSNR gain while the assembled total still fits the budget. -/
def extraRaiseGo (overhead : Nat) (frames : List FrameRD) (budget : Nat)
    (cs : List FrameEnc) :
    Nat → List FrameRD → List FrameEnc → Option (List FrameEnc)
  | _, [], _ => none
  | _, _ :: _, [] => none
  | i, f :: fs, c :: crest =>
    match c with
    | FrameEnc.lossy q =>
      if q < 100 ∧ f.psnrQ q < f.psnrQ (q + 1) ∧
          totalSize overhead frames (cs.set i (FrameEnc.lossy (q + 1))) ≤ budget
      then some (cs.set i (FrameEnc.lossy (q + 1)))
      else extraRaiseGo overhead frames budget cs (i + 1) fs crest
    | FrameEnc.nearLossless _ => extraRaiseGo overhead frames budget cs (i + 1) fs crest

/-- Modelled from the spec: Thumbnailer::ExtraLossyEncode (declared at
src/thumbnailer.h lines 179-181; definition not in the sources; spec 4.4
step 4): spend remaining headroom by repeatedly re-encoding a frame at a
strictly higher lossy quality, within bounded iteration. -/
def extraLossyEncode (overhead : Nat) (frames : List FrameRD) (budget : Nat) :
    Nat → List FrameEnc → List FrameEnc
  | 0, cs => cs
  | fuel + 1, cs =>
    match extraRaiseGo overhead frames budget cs 0 frames cs with
    | none => cs
    | some cs2 => extraLossyEncode overhead frames budget fuel cs2

/-- Modelled from the spec: Thumbnailer::GenerateAnimationSlopeOptim
(declared at src/thumbnailer.h lines 151-154; definition not in the
sources; spec 4.4): the slope-targeted lossy pass, then near-lossless
refinement, then the extra lossy re-encode of the remaining headroom. -/
def generateAnimationSlopeOptim (overhead : Nat) (frames : List FrameRD)
    (budget minQ : Nat) (levels : List Nat) (dPSNR : Rat) :
    Except Status (List FrameEnc) :=
  match lossyEncodeSlopeOptim overhead frames budget minQ dPSNR with
  | .error e => .error e
  | .ok cs =>
    .ok (extraLossyEncode overhead frames budget ((frames.length + 1) * 101)
      (nearLosslessDiff overhead frames budget levels cs))

/-- Modelled from the spec: Thumbnailer::GenerateAnimation (declared at
src/thumbnailer.h lines 84-86) dispatching on the method (spec 4.6); the
near-lossless methods run the Equal-Quality lossy pass first, as required by
the declarations at src/thumbnailer.h lines 137-149. -/
def generateAnimation (overhead : Nat) (frames : List FrameRD)
    (budget minQ : Nat) (levels : List Nat) (dPSNR : Rat) :
    Method → Except Status (List FrameEnc)
  | Method.kEqualQuality =>
    (generateAnimationEqualQuality overhead frames budget minQ).map Prod.snd
  | Method.kEqualPSNR =>
    (generateAnimationEqualPSNR overhead frames budget minQ).map lossyCommits
  | Method.kNearllEqual =>
    (generateAnimationEqualQuality overhead frames budget minQ).map
      (fun r => nearLosslessEqual overhead frames budget levels r.2)
  | Method.kNearllDiff =>
    (generateAnimationEqualQuality overhead frames budget minQ).map
      (fun r => nearLosslessDiff overhead frames budget levels r.2)
  | Method.kSlopeOptim =>
    generateAnimationSlopeOptim overhead frames budget minQ levels dPSNR

/-- Modelled from the spec: Thumbnailer::AddFrame (declared at
src/thumbnailer.h lines 80-82; definition not in the sources; spec 4.6):
appends a (width, height, timestamp) frame record, failing with
kImageFormatError when the new picture's dimensions differ from the frames
already stored. -/
def addFrame (frames : List (Nat × Nat × Int)) (w h : Nat) (ts : Int) :
    Status × List (Nat × Nat × Int) :=
  match frames with
  | [] => (Status.kOk, [(w, h, ts)])
  | (w0, h0, _) :: _ =>
    if w = w0 ∧ h = h0 then (Status.kOk, frames ++ [(w, h, ts)])
    else (Status.kImageFormatError, frames)

/-- Frame list reached by a sequence of AddFrame calls starting from a fresh
Thumbnailer; a failed call leaves the list unchanged, as in main.cc's loop
which ignores the returned status. -/
def runAddFrames (l : List (Nat × Nat × Int)) : List (Nat × Nat × Int) :=
  l.foldl (fun st f => (addFrame st f.1 f.2.1 f.2.2).2) []

/-- All frame records in a list share one canvas size. -/
def sameDims (frames : List (Nat × Nat × Int)) : Prop :=
  ∀ f ∈ frames, ∀ g ∈ frames, f.1 = g.1 ∧ f.2.1 = g.2.1

/-- Concrete RD data: size q, PSNR q. -/
def frameA : FrameRD := ⟨fun q => q, fun q => (q : Rat), fun _ => 0, fun _ => 0⟩

/-- Concrete RD data: size q, PSNR 2q. -/
def frameB : FrameRD :=
  ⟨fun q => q, fun q => ((2 * q : Nat) : Rat), fun _ => 0, fun _ => 0⟩

/-- Concrete RD data: constant lossy size 10 and PSNR q, near-lossless size
15 and PSNR 200 at every strength. -/
def frameC : FrameRD := ⟨fun _ => 10, fun q => (q : Rat), fun _ => 15, fun _ => 200⟩

/-- Concrete encoder oracle: every quality encodes to 42 bytes. -/
def enc0 : Nat → Option Nat := fun _ => some 42

/-- Concrete distortion oracle: every quality scores PSNR 30. -/
def dis0 : Nat → Option Rat := fun _ => some 30

/-- A fresh RD cache: every entry is the unset sentinel. -/
def cache0 : Nat → Int × Rat := fun _ => (-1, -1)

deriving instance DecidableEq for Except

/-! Helper lemmas. -/

/-- The all-equal-quality commitment sums the per-frame sizes at that
quality. -/
theorem sumEnc_replicate (frames : List FrameRD) (q : Nat) :
    sumEnc frames (List.replicate frames.length (FrameEnc.lossy q)) =
      minTailSize frames q := by
  induction frames with
  | nil => rfl
  | cons f fs ih =>
    simp only [List.length_cons, List.replicate_succ, sumEnc, encSizeOf, ih,
      minTailSize, List.map_cons, List.sum_cons]

/-- `minTailSize` splits over a cons cell. -/
theorem minTailSize_cons (f : FrameRD) (fs : List FrameRD) (q : Nat) :
    minTailSize (f :: fs) q = f.sizeQ q + minTailSize fs q := by
  simp [minTailSize]

/-- Monotone per-frame RD size curves (the spec's section-3 invariant) make
the equal-quality total size monotone in the quality. -/
theorem equalS_mono_of_frames (overhead : Nat) (frames : List FrameRD)
    (hmono : ∀ f ∈ frames, ∀ a b, a ≤ b → f.sizeQ a ≤ f.sizeQ b) :
    ∀ a b, a ≤ b → equalS overhead frames a ≤ equalS overhead frames b := by
  intro a b hab
  unfold equalS totalSize
  rw [sumEnc_replicate, sumEnc_replicate]
  have : minTailSize frames a ≤ minTailSize frames b := by
    induction frames with
    | nil => simp [minTailSize]
    | cons f fs ih =>
      rw [minTailSize_cons, minTailSize_cons]
      have h1 := hmono f (List.mem_cons_self f fs) a b hab
      have h2 := ih (fun g hg => hmono g (List.mem_cons_of_mem f hg))
      omega
  omega

/-- The binary search stays above its lower bound, keeps the fitting
invariant, and stays below its upper bound. -/
theorem bsearchFits_spec (S : Nat → Nat) (budget : Nat) :
    ∀ fuel lo hi, hi - lo ≤ fuel → S lo ≤ budget →
      lo ≤ bsearchFits S budget fuel lo hi ∧
      S (bsearchFits S budget fuel lo hi) ≤ budget ∧
      (lo ≤ hi → bsearchFits S budget fuel lo hi ≤ hi) := by
  intro fuel
  induction fuel with
  | zero =>
    intro lo hi hf hlo
    exact ⟨le_refl _, hlo, fun h => by simp only [bsearchFits]; omega⟩
  | succ fuel ih =>
    intro lo hi hf hlo
    simp only [bsearchFits]
    by_cases h : lo < hi
    · simp only [if_pos h]
      have hmid1 : lo < (lo + hi + 1) / 2 := by omega
      have hmid2 : (lo + hi + 1) / 2 ≤ hi := by omega
      by_cases hS : S ((lo + hi + 1) / 2) ≤ budget
      · simp only [if_pos hS]
        obtain ⟨h1, h2, h3⟩ := ih ((lo + hi + 1) / 2) hi (by omega) hS
        exact ⟨by omega, h2, fun _ => h3 hmid2⟩
      · simp only [if_neg hS]
        obtain ⟨h1, h2, h3⟩ := ih lo ((lo + hi + 1) / 2 - 1) (by omega) hlo
        have h4 := h3 (by omega)
        exact ⟨h1, h2, fun _ => by omega⟩
    · simp only [if_neg h]
      exact ⟨le_refl _, hlo, fun _ => by omega⟩

/-- Under a monotone size curve, the binary search result dominates every
fitting quality of the search interval. -/
theorem bsearchFits_max (S : Nat → Nat) (budget : Nat)
    (hmono : ∀ a b, a ≤ b → S a ≤ S b) :
    ∀ fuel lo hi, hi - lo ≤ fuel → S lo ≤ budget →
      ∀ q, lo ≤ q → q ≤ hi → S q ≤ budget →
        q ≤ bsearchFits S budget fuel lo hi := by
  intro fuel
  induction fuel with
  | zero =>
    intro lo hi hf hlo q h1 h2 hq
    simp only [bsearchFits]
    omega
  | succ fuel ih =>
    intro lo hi hf hlo q h1 h2 hq
    simp only [bsearchFits]
    by_cases h : lo < hi
    · simp only [if_pos h]
      have hmid1 : lo < (lo + hi + 1) / 2 := by omega
      have hmid2 : (lo + hi + 1) / 2 ≤ hi := by omega
      by_cases hS : S ((lo + hi + 1) / 2) ≤ budget
      · simp only [if_pos hS]
        rcases le_or_lt q ((lo + hi + 1) / 2) with hle | hgt
        · have hb := (bsearchFits_spec S budget fuel ((lo + hi + 1) / 2) hi
            (by omega) hS).1
          omega
        · exact ih ((lo + hi + 1) / 2) hi (by omega) hS q (by omega) h2 hq
      · simp only [if_neg hS]
        rcases le_or_lt q ((lo + hi + 1) / 2 - 1) with hle | hgt
        · exact ih lo ((lo + hi + 1) / 2 - 1) (by omega) hlo q h1 hle hq
        · exact absurd (le_trans (hmono _ _ (by omega)) hq) hS
    · simp only [if_neg h]
      omega

/-- Full characterisation of the Equal-Quality search when some quality of
the admissible interval fits the budget. -/
theorem generateAnimationEqualQuality_spec (overhead : Nat)
    (frames : List FrameRD) (budget minQ : Nat)
    (hmono : ∀ a b, a ≤ b → equalS overhead frames a ≤ equalS overhead frames b)
    (hminQ : minQ ≤ 100)
    (hfit : equalS overhead frames minQ ≤ budget) :
    ∃ qbest,
      generateAnimationEqualQuality overhead frames budget minQ =
        .ok (qbest, List.replicate frames.length (FrameEnc.lossy qbest)) ∧
      minQ ≤ qbest ∧ qbest ≤ 100 ∧
      equalS overhead frames qbest ≤ budget ∧
      ∀ q, q ≤ 100 → equalS overhead frames q ≤ budget → q ≤ qbest := by
  have hnot : ¬ budget < equalS overhead frames minQ := by omega
  obtain ⟨h1, h2, h3⟩ :=
    bsearchFits_spec (equalS overhead frames) budget 101 minQ 100 (by omega) hfit
  refine ⟨bsearchFits (equalS overhead frames) budget 101 minQ 100, ?_, h1,
    h3 hminQ, h2, ?_⟩
  · simp [generateAnimationEqualQuality, hnot]
  · intro q h100 hq
    rcases le_or_lt q minQ with hle | hgt
    · omega
    · exact bsearchFits_max (equalS overhead frames) budget hmono 101 minQ 100
        (by omega) hfit q (by omega) h100 hq

/-- C1: for every frame sequence (with the spec's monotone RD size curves)
and every budget for which some admissible quality fits, the Equal-Quality
strategy commits the single largest integer quality in [0,100] whose total
assembled size fits the budget, and every frame's final quality is that
winning value. -/
theorem equalQuality_commits_largest_fitting_quality (overhead : Nat)
    (frames : List FrameRD) (budget minQ : Nat)
    (hmono : ∀ f ∈ frames, ∀ a b, a ≤ b → f.sizeQ a ≤ f.sizeQ b)
    (hminQ : minQ ≤ 100)
    (hfeas : ∃ q, minQ ≤ q ∧ q ≤ 100 ∧ equalS overhead frames q ≤ budget) :
    ∃ qbest cs,
      generateAnimationEqualQuality overhead frames budget minQ =
        .ok (qbest, cs) ∧
      qbest ≤ 100 ∧
      equalS overhead frames qbest ≤ budget ∧
      (∀ q, q ≤ 100 → equalS overhead frames q ≤ budget → q ≤ qbest) ∧
      ∀ c ∈ cs, c = FrameEnc.lossy qbest := by
  obtain ⟨q0, hq1, hq2, hq3⟩ := hfeas
  have hm := equalS_mono_of_frames overhead frames hmono
  have hfit : equalS overhead frames minQ ≤ budget :=
    le_trans (hm minQ q0 hq1) hq3
  obtain ⟨qb, heq, hlo, h100, hfits, hmax⟩ :=
    generateAnimationEqualQuality_spec overhead frames budget minQ hm hminQ hfit
  exact ⟨qb, _, heq, h100, hfits, hmax,
    fun c hc => List.eq_of_mem_replicate hc⟩

/-- C1 witness: one frame with size curve q at budget 50 commits quality
50. -/
theorem equalQuality_commits_largest_fitting_quality_witness :
    ∃ qbest cs,
      generateAnimationEqualQuality 0 [frameA] 50 0 = .ok (qbest, cs) ∧
      qbest ≤ 100 ∧
      equalS 0 [frameA] qbest ≤ 50 ∧
      (∀ q, q ≤ 100 → equalS 0 [frameA] q ≤ 50 → q ≤ qbest) ∧
      ∀ c ∈ cs, c = FrameEnc.lossy qbest :=
  equalQuality_commits_largest_fitting_quality 0 [frameA] 50 0
    (by
      intro f hf a b hab
      simp only [List.mem_singleton] at hf
      subst hf
      simpa [frameA] using hab)
    (by decide) ⟨50, by decide, by decide, by decide⟩

/-- C7: with both budgets admitting a fitting admissible quality, the
quality chosen at the larger budget is at least the one chosen at the
smaller budget. -/
theorem equalQuality_budget_monotone (overhead : Nat) (frames : List FrameRD)
    (b1 b2 minQ : Nat)
    (hmono : ∀ f ∈ frames, ∀ a b, a ≤ b → f.sizeQ a ≤ f.sizeQ b)
    (hminQ : minQ ≤ 100) (hb : b1 ≤ b2)
    (hfeas : ∃ q, minQ ≤ q ∧ q ≤ 100 ∧ equalS overhead frames q ≤ b1) :
    ∃ q1 cs1 q2 cs2,
      generateAnimationEqualQuality overhead frames b1 minQ = .ok (q1, cs1) ∧
      generateAnimationEqualQuality overhead frames b2 minQ = .ok (q2, cs2) ∧
      q1 ≤ q2 := by
  obtain ⟨q0, hq1, hq2, hq3⟩ := hfeas
  have hm := equalS_mono_of_frames overhead frames hmono
  have hfit1 : equalS overhead frames minQ ≤ b1 :=
    le_trans (hm minQ q0 hq1) hq3
  obtain ⟨qa, heqa, hloa, h100a, hfitsa, _⟩ :=
    generateAnimationEqualQuality_spec overhead frames b1 minQ hm hminQ hfit1
  obtain ⟨qc, heqc, _, _, _, hmaxc⟩ :=
    generateAnimationEqualQuality_spec overhead frames b2 minQ hm hminQ
      (le_trans hfit1 hb)
  exact ⟨qa, _, qc, _, heqa, heqc, hmaxc qa h100a (le_trans hfitsa hb)⟩

/-- C7 witness: budgets 30 and 50 on the single frame with size curve q. -/
theorem equalQuality_budget_monotone_witness :
    ∃ q1 cs1 q2 cs2,
      generateAnimationEqualQuality 0 [frameA] 30 0 = .ok (q1, cs1) ∧
      generateAnimationEqualQuality 0 [frameA] 50 0 = .ok (q2, cs2) ∧
      q1 ≤ q2 :=
  equalQuality_budget_monotone 0 [frameA] 30 50 0
    (by
      intro f hf a b hab
      simp only [List.mem_singleton] at hf
      subst hf
      simpa [frameA] using hab)
    (by decide) (by decide) ⟨30, by decide, by decide, by decide⟩

/-- C2: a budget below the total assembled size at the configured minimum
lossy quality makes every generation method fail with kByteBudgetError, and
the error result carries no container bytes. -/
theorem byteBudgetError_when_budget_below_minimum (overhead : Nat)
    (frames : List FrameRD) (budget minQ : Nat) (levels : List Nat)
    (dPSNR : Rat)
    (hsmall : budget < equalS overhead frames minQ) :
    ∀ m : Method,
      generateAnimation overhead frames budget minQ levels dPSNR m =
        .error Status.kByteBudgetError := by
  intro m
  have h1 : generateAnimationEqualQuality overhead frames budget minQ =
      .error Status.kByteBudgetError := by
    simp [generateAnimationEqualQuality, hsmall]
  cases m <;>
    simp [generateAnimation, generateAnimationEqualPSNR,
      generateAnimationSlopeOptim, lossyEncodeSlopeOptim, h1, hsmall,
      Except.map]

/-- C2 witness: minimum quality 10 costs 10 bytes against a budget of 5. -/
theorem byteBudgetError_when_budget_below_minimum_witness :
    generateAnimation 0 [frameA] 5 10 [] 1 Method.kEqualQuality =
      .error Status.kByteBudgetError :=
  byteBudgetError_when_budget_below_minimum 0 [frameA] 5 10 [] 1 (by decide)
    Method.kEqualQuality

/-- A successful balancing step only ever produces an assignment that fits
the budget (the feasibility check is part of the step). -/
theorem balanceStep_fits (overhead : Nat) (frames : List FrameRD)
    (budget : Nat) (qs qs2 : List Nat)
    (h : balanceStep overhead frames budget qs = some qs2) :
    totalSize overhead frames (lossyCommits qs2) ≤ budget := by
  simp only [balanceStep] at h
  split at h
  case _ f q0 heq1 heq2 =>
    split at h
    case isTrue =>
      split at h
      case _ q hfind =>
        have hp := List.find?_some hfind
        rw [Bool.and_eq_true, decide_eq_true_eq, decide_eq_true_eq] at hp
        injection h with h
        subst h
        exact hp.2
      case _ => exact absurd h (by simp)
    case isFalse => exact absurd h (by simp)
  case _ => exact absurd h (by simp)

/-- The balancing loop preserves the budget. -/
theorem balanceLoop_fits (overhead : Nat) (frames : List FrameRD)
    (budget : Nat) :
    ∀ fuel qs,
      totalSize overhead frames (lossyCommits qs) ≤ budget →
      totalSize overhead frames
        (lossyCommits (balanceLoop overhead frames budget fuel qs)) ≤ budget := by
  intro fuel
  induction fuel with
  | zero => intro qs h; simpa [balanceLoop] using h
  | succ fuel ih =>
    intro qs h
    cases hstep : balanceStep overhead frames budget qs with
    | none => simpa [balanceLoop, hstep] using h
    | some qs2 =>
      simp only [balanceLoop, hstep]
      exact ih qs2 (balanceStep_fits overhead frames budget qs qs2 hstep)

/-- With no feasible balancing step the loop returns its input unchanged. -/
theorem balanceLoop_of_none (overhead : Nat) (frames : List FrameRD)
    (budget : Nat) (qs : List Nat)
    (h : balanceStep overhead frames budget qs = none) :
    ∀ fuel, balanceLoop overhead frames budget fuel qs = qs := by
  intro fuel
  cases fuel with
  | zero => rfl
  | succ fuel => simp [balanceLoop, h]

/-- C5: whenever Equal-Quality succeeds, Equal-PSNR succeeds as well; its
error statuses are exactly Equal-Quality's, and when no feasible balance
exists it returns exactly the Equal-Quality quality assignment. -/
theorem equalPSNR_never_errors_when_equalQuality_succeeds (overhead : Nat)
    (frames : List FrameRD) (budget minQ q : Nat) (cs : List FrameEnc)
    (h : generateAnimationEqualQuality overhead frames budget minQ = .ok (q, cs)) :
    (∃ qs, generateAnimationEqualPSNR overhead frames budget minQ = .ok qs) ∧
    (∀ e, generateAnimationEqualPSNR overhead frames budget minQ = .error e ↔
        generateAnimationEqualQuality overhead frames budget minQ = .error e) ∧
    (balanceStep overhead frames budget (List.replicate frames.length q) = none →
      generateAnimationEqualPSNR overhead frames budget minQ =
        .ok (List.replicate frames.length q)) := by
  refine ⟨⟨balanceLoop overhead frames budget ((frames.length + 1) * 101)
    (List.replicate frames.length q), ?_⟩, ?_, ?_⟩
  · simp [generateAnimationEqualPSNR, h]
  · intro e
    simp [generateAnimationEqualPSNR, h]
  · intro hnone
    simp [generateAnimationEqualPSNR, h,
      balanceLoop_of_none overhead frames budget _ hnone]

/-- C5 witness: one frame, budget 50, minimum quality 0. -/
theorem equalPSNR_never_errors_when_equalQuality_succeeds_witness :
    (∃ qs, generateAnimationEqualPSNR 0 [frameA] 50 0 = .ok qs) ∧
    (∀ e, generateAnimationEqualPSNR 0 [frameA] 50 0 = .error e ↔
        generateAnimationEqualQuality 0 [frameA] 50 0 = .error e) ∧
    (balanceStep 0 [frameA] 50 [50] = none →
      generateAnimationEqualPSNR 0 [frameA] 50 0 = .ok [50]) :=
  equalPSNR_never_errors_when_equalQuality_succeeds 0 [frameA] 50 0 50
    [FrameEnc.lossy 50] (by decide)

/-- C6 (amended): the Equal-PSNR result always fits the byte budget. -/
theorem equalPSNR_total_fits_budget (overhead : Nat) (frames : List FrameRD)
    (budget minQ : Nat) (qs : List Nat)
    (h : generateAnimationEqualPSNR overhead frames budget minQ = .ok qs) :
    totalSize overhead frames (lossyCommits qs) ≤ budget := by
  unfold generateAnimationEqualPSNR at h
  cases heq : generateAnimationEqualQuality overhead frames budget minQ with
  | error e => rw [heq] at h; exact absurd h (by simp)
  | ok r =>
    rw [heq] at h
    obtain ⟨q, cs⟩ := r
    dsimp only at h
    injection h with h
    subst h
    unfold generateAnimationEqualQuality at heq
    split at heq
    case isTrue => exact absurd heq (by simp)
    case isFalse hguard =>
      simp only [Except.ok.injEq, Prod.mk.injEq] at heq
      obtain ⟨hq, hcs⟩ := heq
      subst hq
      apply balanceLoop_fits
      have hfit0 : equalS overhead frames minQ ≤ budget := by omega
      have hb := (bsearchFits_spec (equalS overhead frames) budget 101 minQ 100
        (by omega) hfit0).2.1
      simpa [equalS, lossyCommits, List.map_replicate] using hb

/-- C6 witness: two frames, budget 151; the balanced result [76, 75] still
fits the budget. -/
theorem equalPSNR_total_fits_budget_witness :
    totalSize 0 [frameA, frameB] (lossyCommits [76, 75]) ≤ 151 :=
  equalPSNR_total_fits_budget 0 [frameA, frameB] 151 0 [76, 75] (by decide)

/-- C6 counterexample: two frames with size curve q and PSNR curves q and
2q, budget 151.  Equal-Quality picks quality 75 for a total of 150;
Equal-PSNR spends the remaining byte of budget headroom raising frame 0 to
quality 76, for a total of 151 — strictly larger than Equal-Quality's total,
refuting the claim that Equal-PSNR's total size never exceeds
Equal-Quality's. -/
theorem equalPSNR_total_exceeds_equalQuality_at_concrete_input :
    generateAnimationEqualQuality 0 [frameA, frameB] 151 0 =
      .ok (75, [FrameEnc.lossy 75, FrameEnc.lossy 75]) ∧
    generateAnimationEqualPSNR 0 [frameA, frameB] 151 0 = .ok [76, 75] ∧
    totalSize 0 [frameA, frameB] (lossyCommits [76, 75]) = 151 ∧
    totalSize 0 [frameA, frameB] [FrameEnc.lossy 75, FrameEnc.lossy 75] = 150 ∧
    ¬ (151 : Nat) ≤ 150 := by
  refine ⟨by decide, by decide, by decide, by decide, by decide⟩

/-- Refining one frame with near-lossless strengths keeps the running total
within the budget. -/
theorem nlRefineFrame_fits (overhead budget doneSize restSize : Nat)
    (f : FrameRD) (levels : List Nat) (c : FrameEnc)
    (h : overhead + doneSize + encSizeOf f c + restSize ≤ budget) :
    overhead + doneSize +
      encSizeOf f (nlRefineFrame overhead budget doneSize restSize f levels c) +
      restSize ≤ budget := by
  unfold nlRefineFrame
  induction levels generalizing c with
  | nil => simpa using h
  | cons s rest ih =>
    simp only [List.foldl_cons]
    by_cases hc : overhead + doneSize + f.nlSizeS s + restSize ≤ budget ∧
        encPSNROf f c < f.nlPSNRS s
    · rw [if_pos hc]
      exact ih _ (by simp only [encSizeOf]; omega)
    · rw [if_neg hc]
      exact ih _ h

/-- The per-frame near-lossless pass keeps the total within the budget. -/
theorem nlDiffGo_fits (overhead budget : Nat) (levels : List Nat) :
    ∀ frames cs doneSize,
      overhead + doneSize + sumEnc frames cs ≤ budget →
      overhead + doneSize +
        sumEnc frames (nlDiffGo overhead budget levels doneSize frames cs) ≤
          budget := by
  intro frames
  induction frames with
  | nil => intro cs d h; simpa [nlDiffGo, sumEnc] using h
  | cons f fs ih =>
    intro cs d h
    cases cs with
    | nil => simpa [nlDiffGo, sumEnc] using h
    | cons c crest =>
      simp only [nlDiffGo, sumEnc]
      have h1 : overhead + d + encSizeOf f c + sumEnc fs crest ≤ budget := by
        simp only [sumEnc] at h
        omega
      have h2 := nlRefineFrame_fits overhead budget d (sumEnc fs crest) f
        levels c h1
      have h3 := ih crest
        (d + encSizeOf f (nlRefineFrame overhead budget d (sumEnc fs crest) f
          levels c)) (by omega)
      omega

/-- C4 helper: the near-lossless refinement never exceeds an already-fit
budget. -/
theorem nearLosslessDiff_fits (overhead : Nat) (frames : List FrameRD)
    (budget : Nat) (levels : List Nat) (cs : List FrameEnc)
    (h : totalSize overhead frames cs ≤ budget) :
    totalSize overhead frames (nearLosslessDiff overhead frames budget levels cs) ≤
      budget := by
  have := nlDiffGo_fits overhead budget levels frames cs 0
    (by simpa [totalSize] using h)
  simpa [totalSize, nearLosslessDiff] using this

/-- The shared-strength near-lossless pass keeps the total within the
budget. -/
theorem nearLosslessEqual_fits (overhead : Nat) (frames : List FrameRD)
    (budget : Nat) (levels : List Nat) (cs : List FrameEnc)
    (h : totalSize overhead frames cs ≤ budget) :
    totalSize overhead frames (nearLosslessEqual overhead frames budget levels cs) ≤
      budget := by
  unfold nearLosslessEqual
  induction levels generalizing cs with
  | nil => simpa using h
  | cons s rest ih =>
    simp only [List.foldl_cons]
    by_cases hc : totalSize overhead frames (nlEqualApply s frames cs) ≤ budget
    · rw [if_pos hc]; exact ih _ hc
    · rw [if_neg hc]; exact ih _ h

/-- The greedy slope-targeted allocation keeps the total within the budget
whenever the all-minimum floor fits. -/
theorem slopeAllocGo_fits (overhead budget minQ : Nat) (median : Rat) :
    ∀ frames doneSize,
      overhead + doneSize + minTailSize frames minQ ≤ budget →
      overhead + doneSize +
        sumEnc frames (slopeAllocGo overhead budget minQ median doneSize frames) ≤
          budget := by
  intro frames
  induction frames with
  | nil => intro d h; simpa [slopeAllocGo, sumEnc, minTailSize] using h
  | cons f fs ih =>
    intro d h
    rw [minTailSize_cons] at h
    simp only [slopeAllocGo]
    by_cases hc : overhead + d + f.sizeQ (slopeTargetQ f median minQ) +
        minTailSize fs minQ ≤ budget
    · simp only [if_pos hc, sumEnc, encSizeOf]
      have := ih (d + f.sizeQ (slopeTargetQ f median minQ)) (by omega)
      omega
    · simp only [if_neg hc, sumEnc, encSizeOf]
      have := ih (d + f.sizeQ minQ) (by omega)
      omega

/-- C4 helper: a successful slope-targeted lossy pass fits the budget. -/
theorem lossyEncodeSlopeOptim_fits (overhead : Nat) (frames : List FrameRD)
    (budget minQ : Nat) (dPSNR : Rat) (cs : List FrameEnc)
    (h : lossyEncodeSlopeOptim overhead frames budget minQ dPSNR = .ok cs) :
    totalSize overhead frames cs ≤ budget := by
  unfold lossyEncodeSlopeOptim at h
  split at h
  case isTrue => exact absurd h (by simp)
  case isFalse hguard =>
    split at h
    case _ => exact absurd h (by simp)
    case _ med hmed =>
      injection h with h
      subst h
      have hmt : overhead + 0 + minTailSize frames minQ ≤ budget := by
        have hs : equalS overhead frames minQ =
            overhead + minTailSize frames minQ := by
          simp [equalS, totalSize, sumEnc_replicate]
        omega
      have := slopeAllocGo_fits overhead budget minQ med frames 0 hmt
      simpa [totalSize] using this

/-- C4 (amended): on every input on which the initial slope-targeted lossy
pass fits the budget, both that pass's committed total and the total after
near-lossless refinement are within the byte budget. -/
theorem slopeOptim_phases_fit_budget (overhead : Nat) (frames : List FrameRD)
    (budget minQ : Nat) (levels : List Nat) (dPSNR : Rat) (cs : List FrameEnc)
    (h : lossyEncodeSlopeOptim overhead frames budget minQ dPSNR = .ok cs) :
    totalSize overhead frames cs ≤ budget ∧
    totalSize overhead frames (nearLosslessDiff overhead frames budget levels cs) ≤
      budget := by
  have h1 := lossyEncodeSlopeOptim_fits overhead frames budget minQ dPSNR cs h
  exact ⟨h1, nearLosslessDiff_fits overhead frames budget levels cs h1⟩

/-- Concrete evaluation: the first step of the leftmost-point walk on
frameC's RD curve (the PSNR drop from 100 to 99 is within 1). -/
theorem findQhi_frameC_step1 : findQhiGo frameC 1 100 = findQhiGo frameC 1 99 := by
  rw [findQhiGo]
  norm_num [frameC]

/-- Concrete evaluation: the walk stops at quality 99 (the PSNR drop from
100 to 98 exceeds 1). -/
theorem findQhi_frameC_step2 : findQhiGo frameC 1 99 = 99 := by
  rw [findQhiGo]
  norm_num [frameC]

/-- Concrete evaluation: the leftmost point within PSNR drop 1 on frameC's
RD curve is quality 99. -/
theorem findQhi_frameC : findQhi frameC 1 = 99 := by
  rw [findQhi, findQhi_frameC_step1, findQhi_frameC_step2]

/-- Concrete evaluation: frameC's slope between qualities 99 and 100 is 0
(the size difference is 0 and `Rat` division is total). -/
theorem computeSlope_frameC_99 : computeSlope frameC 99 100 = 0 := by
  norm_num [computeSlope, frameC]

/-- Concrete evaluation: the degenerate slope at quality 100 itself is 0. -/
theorem computeSlope_frameC_100 : computeSlope frameC 100 100 = 0 := by
  norm_num [computeSlope, frameC]

/-- Concrete evaluation: the median slope of the one-frame sequence is 0. -/
theorem findMedianSlope_frameC : findMedianSlope [frameC] 1 = .ok 0 := by
  simp [findMedianSlope, findQhi_frameC, computeSlope_frameC_99, sortRat,
    List.insertionSort, List.orderedInsert]

/-- The two-element candidate range of the slope-target scan at minimum
quality 99. -/
theorem range_two_eq : List.range 2 = [0, 1] := by decide

/-- Concrete evaluation: frameC's slope-target quality with median 0 and
minimum quality 99 is 99. -/
theorem slopeTargetQ_frameC : slopeTargetQ frameC 0 99 = 99 := by
  norm_num [slopeTargetQ, range_two_eq, computeSlope_frameC_99,
    computeSlope_frameC_100]

/-- frameC's lossy size curve is the constant 10. -/
theorem frameC_sizeQ (q : Nat) : frameC.sizeQ q = 10 := rfl

/-- Concrete evaluation: the slope-targeted lossy pass on frameC with budget
20 and minimum quality 99 commits quality 99. -/
theorem lossyEncodeSlopeOptim_frameC :
    lossyEncodeSlopeOptim 0 [frameC] 20 99 1 = .ok [FrameEnc.lossy 99] := by
  rw [lossyEncodeSlopeOptim, findMedianSlope_frameC]
  norm_num [equalS, totalSize, sumEnc, encSizeOf, frameC_sizeQ, slopeAllocGo,
    slopeTargetQ_frameC, minTailSize]

/-- C4 counterexample: on frameC (lossy size 10, near-lossless size 15)
with budget 20, the slope-targeted lossy pass commits a total of 10 and the
near-lossless refinement then commits a total of 15 — within the budget but
strictly larger than the lossy pass's total, refuting the claim that the
refinement's committed total never exceeds the lossy pass's. -/
theorem slopeOptim_refinement_increases_total_at_concrete_input :
    lossyEncodeSlopeOptim 0 [frameC] 20 99 1 = .ok [FrameEnc.lossy 99] ∧
    nearLosslessDiff 0 [frameC] 20 [50] [FrameEnc.lossy 99] =
      [FrameEnc.nearLossless 50] ∧
    totalSize 0 [frameC] [FrameEnc.lossy 99] = 10 ∧
    totalSize 0 [frameC] [FrameEnc.nearLossless 50] = 15 ∧
    ¬ (15 : Nat) ≤ 10 :=
  ⟨lossyEncodeSlopeOptim_frameC, by decide, by decide, by decide, by decide⟩

/-- C4 witness: both phases of the slope-optimised pipeline on frameC stay
within the budget of 20. -/
theorem slopeOptim_phases_fit_budget_witness :
    totalSize 0 [frameC] [FrameEnc.lossy 99] ≤ 20 ∧
    totalSize 0 [frameC]
      (nearLosslessDiff 0 [frameC] 20 [50] [FrameEnc.lossy 99]) ≤ 20 :=
  slopeOptim_phases_fit_budget 0 [frameC] 20 99 [50] 1 [FrameEnc.lossy 99]
    lossyEncodeSlopeOptim_frameC

/-- C3: a second stats request for the same (frame, quality) pair returns
the identical (size, PSNR) result, leaves the RD cache unchanged, and makes
no encoder or distortion call; the cached pair is returned as-is. -/
theorem getPictureStats_second_request_cached (encode : Nat → Option Nat)
    (distort : Nat → Option Rat) (lossy_data : Nat → Int × Rat) (quality : Nat)
    (r : Int × Rat) (cache2 : Nat → Int × Rat) (n : Nat)
    (h : getPictureStats encode distort lossy_data quality = .ok (r, cache2, n)) :
    getPictureStats encode distort cache2 quality = .ok (r, cache2, 0) ∧
    cache2 quality = r := by
  unfold getPictureStats at h ⊢
  split at h
  case isTrue hmiss =>
    split at h
    · exact absurd h (by simp)
    case _ sz hsz =>
      split at h
      · exact absurd h (by simp)
      case _ p hp =>
        simp only [Except.ok.injEq, Prod.mk.injEq] at h
        obtain ⟨hr, hc, hn⟩ := h
        subst hr
        subst hc
        have hne : ¬ ((Function.update lossy_data quality
            ((sz : Int), p) quality).1 = -1) := by
          rw [Function.update_same]
          omega
        rw [if_neg hne, Function.update_same]
        exact ⟨rfl, rfl⟩
  case isFalse hhit =>
    simp only [Except.ok.injEq, Prod.mk.injEq] at h
    obtain ⟨hr, hc, hn⟩ := h
    subst hc
    rw [if_neg hhit, hr]
    exact ⟨rfl, rfl⟩

/-- C3 witness: after a first (uncached) request at quality 50, the second
request returns the same pair from the cache with zero external calls. -/
theorem getPictureStats_second_request_cached_witness :
    getPictureStats enc0 dis0 (Function.update cache0 50 ((42 : Int), (30 : Rat))) 50 =
      .ok (((42 : Int), (30 : Rat)),
        Function.update cache0 50 ((42 : Int), (30 : Rat)), 0) ∧
    Function.update cache0 50 ((42 : Int), (30 : Rat)) 50 = ((42 : Int), (30 : Rat)) :=
  getPictureStats_second_request_cached enc0 dis0 cache0 50
    ((42 : Int), (30 : Rat)) (Function.update cache0 50 ((42 : Int), (30 : Rat)))
    2 rfl

/-- Adding a frame preserves the shared-canvas-size invariant. -/
theorem addFrame_sameDims (st : List (Nat × Nat × Int)) (w h : Nat) (ts : Int)
    (hs : sameDims st) : sameDims (addFrame st w h ts).2 := by
  cases st with
  | nil =>
    intro f hf g hg
    simp only [addFrame, List.mem_singleton] at hf hg
    subst hf; subst hg
    exact ⟨rfl, rfl⟩
  | cons f0 rest =>
    obtain ⟨w0, h0, t0⟩ := f0
    by_cases hc : w = w0 ∧ h = h0
    · simp only [addFrame, if_pos hc]
      intro f hf g hg
      rw [List.mem_append] at hf hg
      have hhead : ((w0, h0, t0) : Nat × Nat × Int) ∈ (w0, h0, t0) :: rest :=
        List.mem_cons_self _ _
      rcases hf with hf | hf <;> rcases hg with hg | hg
      · exact hs f hf g hg
      · simp only [List.mem_singleton] at hg
        subst hg
        have hfd := hs f hf _ hhead
        exact ⟨hfd.1.trans hc.1.symm, hfd.2.trans hc.2.symm⟩
      · simp only [List.mem_singleton] at hf
        subst hf
        have hgd := hs g hg _ hhead
        exact ⟨(hgd.1.trans hc.1.symm).symm, (hgd.2.trans hc.2.symm).symm⟩
      · simp only [List.mem_singleton] at hf hg
        subst hf; subst hg
        exact ⟨rfl, rfl⟩
    · simp only [addFrame, if_neg hc]
      exact hs

/-- Every state reachable by AddFrame calls satisfies the shared-canvas-size
invariant. -/
theorem runAddFrames_sameDims (l : List (Nat × Nat × Int)) :
    sameDims (runAddFrames l) := by
  have key : ∀ st, sameDims st →
      sameDims (l.foldl (fun st f => (addFrame st f.1 f.2.1 f.2.2).2) st) := by
    induction l with
    | nil => intro st hst; exact hst
    | cons x rest ih =>
      intro st hst
      exact ih _ (addFrame_sameDims st x.1 x.2.1 x.2.2 hst)
  exact key [] (by intro f hf; exact absurd hf (List.not_mem_nil f))

/-- AddFrame on any state satisfying the invariant: error exactly on a
dimension mismatch with some stored frame, append on success, state
unchanged on error. -/
theorem addFrame_spec (st : List (Nat × Nat × Int)) (hsame : sameDims st)
    (w h : Nat) (ts : Int) :
    ((addFrame st w h ts).1 = Status.kImageFormatError ↔
      ∃ f ∈ st, f.1 ≠ w ∨ f.2.1 ≠ h) ∧
    ((addFrame st w h ts).1 = Status.kOk →
      (addFrame st w h ts).2 = st ++ [(w, h, ts)]) ∧
    ((addFrame st w h ts).1 = Status.kImageFormatError →
      (addFrame st w h ts).2 = st) := by
  cases st with
  | nil =>
    refine ⟨?_, ?_, ?_⟩
    · simp [addFrame]
    · intro _; simp [addFrame]
    · intro hcon
      simp only [addFrame] at hcon
      exact absurd hcon (by decide)
  | cons f0 rest =>
    obtain ⟨w0, h0, t0⟩ := f0
    by_cases hc : w = w0 ∧ h = h0
    · refine ⟨?_, ?_, ?_⟩
      · simp only [addFrame, if_pos hc]
        constructor
        · intro hcon; exact absurd hcon (by decide)
        · rintro ⟨f, hf, hne⟩
          have hfd := hsame f hf _ (List.mem_cons_self (w0, h0, t0) rest)
          rcases hne with hne | hne
          · exact absurd (hfd.1.trans hc.1.symm) hne
          · exact absurd (hfd.2.trans hc.2.symm) hne
      · intro _; simp [addFrame, if_pos hc]
      · intro hcon
        simp only [addFrame, if_pos hc] at hcon
        exact absurd hcon (by decide)
    · refine ⟨?_, ?_, ?_⟩
      · simp only [addFrame, if_neg hc]
        constructor
        · intro _
          refine ⟨(w0, h0, t0), List.mem_cons_self _ _, ?_⟩
          rcases not_and_or.mp hc with hne | hne
          · exact Or.inl (fun hcon => hne hcon.symm)
          · exact Or.inr (fun hcon => hne hcon.symm)
        · intro _; trivial
      · intro hcon
        simp only [addFrame, if_neg hc] at hcon
        exact absurd hcon (by decide)
      · intro _; simp [addFrame, if_neg hc]

/-- C8: after any sequence of AddFrame calls, a further AddFrame fails with
kImageFormatError exactly when the new picture's dimensions differ from some
previously added frame's; on success the frame record is appended, and on
error the frame list is unchanged. -/
theorem addFrame_rejects_dimension_mismatch (l : List (Nat × Nat × Int))
    (w h : Nat) (ts : Int) :
    ((addFrame (runAddFrames l) w h ts).1 = Status.kImageFormatError ↔
      ∃ f ∈ runAddFrames l, f.1 ≠ w ∨ f.2.1 ≠ h) ∧
    ((addFrame (runAddFrames l) w h ts).1 = Status.kOk →
      (addFrame (runAddFrames l) w h ts).2 = runAddFrames l ++ [(w, h, ts)]) ∧
    ((addFrame (runAddFrames l) w h ts).1 = Status.kImageFormatError →
      (addFrame (runAddFrames l) w h ts).2 = runAddFrames l) :=
  addFrame_spec (runAddFrames l) (runAddFrames_sameDims l) w h ts

/-- The distortion loop never produces more scores than frames. -/
theorem collectPSNR_length_le (distortion : Nat → Nat → Option Rat) :
    ∀ l : List (Nat × Nat), (collectPSNR distortion l).length ≤ l.length := by
  intro l
  induction l with
  | nil => simp [collectPSNR]
  | cons x rest ih =>
    obtain ⟨o, p⟩ := x
    cases hd : distortion o p with
    | none => simp [collectPSNR, hd]
    | some v =>
      simp only [collectPSNR, hd, List.length_cons]
      omega

/-- The distortion loop covers every frame exactly when the distortion
metric succeeds on every (original, decoded) pair. -/
theorem collectPSNR_length_eq_iff (distortion : Nat → Nat → Option Rat) :
    ∀ l : List (Nat × Nat),
      ((collectPSNR distortion l).length = l.length ↔
        ∀ pr ∈ l, (distortion pr.1 pr.2).isSome) := by
  intro l
  induction l with
  | nil => simp [collectPSNR]
  | cons x rest ih =>
    obtain ⟨o, p⟩ := x
    cases hd : distortion o p with
    | none =>
      simp only [collectPSNR, hd, List.length_nil, List.length_cons]
      constructor
      · intro hcon
        exact absurd hcon (by omega)
      · intro hall
        have := hall (o, p) (List.mem_cons_self _ _)
        rw [hd] at this
        exact absurd this (by simp)
    | some v =>
      simp only [collectPSNR, hd, List.length_cons]
      constructor
      · intro heq pr hpr
        rcases List.mem_cons.mp hpr with h1 | h1
        · subst h1; simp [hd]
        · exact (ih.mp (by omega)) pr h1
      · intro hall
        have := ih.mpr (fun pr hpr => hall pr (List.mem_cons_of_mem _ hpr))
        omega

/-- Sorting PSNR values permutes them. -/
theorem sortRat_perm (l : List Rat) : (sortRat l).Perm l :=
  List.perm_insertionSort _ l

/-- The sorted PSNR list is sorted. -/
theorem sortRat_sorted (l : List Rat) : List.Sorted (· ≤ ·) (sortRat l) :=
  List.sorted_insertionSort _ l

/-- The head of a nonempty list is a member. -/
theorem headD_mem (l : List Rat) (d : Rat) (h : l ≠ []) : l.headD d ∈ l := by
  cases l with
  | nil => exact absurd rfl h
  | cons a t => simp

/-- The last element of a nonempty list is a member. -/
theorem getLastD_mem (l : List Rat) (d : Rat) (h : l ≠ []) :
    l.getLastD d ∈ l := by
  induction l generalizing d with
  | nil => exact absurd rfl h
  | cons a t ih =>
    rw [List.getLastD_cons]
    cases t with
    | nil => simp [List.getLastD]
    | cons b t2 => exact List.mem_cons_of_mem a (ih a (by simp))

/-- In a sorted list, the head bounds every member from below. -/
theorem sorted_headD_le (l : List Rat) (hs : List.Sorted (· ≤ ·) l) :
    ∀ x ∈ l, l.headD 0 ≤ x := by
  cases l with
  | nil => simp
  | cons a t =>
    intro x hx
    simp only [List.headD_cons]
    rcases List.mem_cons.mp hx with h1 | h1
    · subst h1; exact le_refl x
    · exact List.rel_of_sorted_cons hs x h1

/-- In a sorted list, the last element bounds every member from above. -/
theorem sorted_le_getLastD (l : List Rat) (hs : List.Sorted (· ≤ ·) l) :
    ∀ x ∈ l, x ≤ l.getLastD 0 := by
  induction l with
  | nil => simp
  | cons a t ih =>
    intro x hx
    rw [List.getLastD_cons]
    have hs2 : List.Sorted (· ≤ ·) t := hs.of_cons
    rcases List.mem_cons.mp hx with h1 | h1
    · subst h1
      cases t with
      | nil => simp [List.getLastD]
      | cons b t2 =>
        have hmem : (b :: t2).getLastD x ∈ b :: t2 :=
          getLastD_mem (b :: t2) x (by simp)
        exact List.rel_of_sorted_cons hs _ hmem
    · -- x in the tail: the tail's last with default a is the same as with
      -- default 0 when the tail is nonempty
      cases t with
      | nil => exact absurd h1 (List.not_mem_nil x)
      | cons b t2 =>
        have := ih hs2 x h1
        rwa [List.getLastD_cons] at this ⊢

/-- Evaluation of AnimData2PSNR when decoding fails. -/
theorem animData2PSNR_error (e : Status)
    (distortion : Nat → Nat → Option Rat) (original_pics : List Nat)
    (stats0 : ThumbnailStatPSNR) :
    animData2PSNR (.error e) distortion original_pics false stats0 =
      (e, stats0) := by
  simp [animData2PSNR]

/-- Evaluation of AnimData2PSNR on a frame-count mismatch. -/
theorem animData2PSNR_mismatch (pics : List Nat)
    (distortion : Nat → Nat → Option Rat) (original_pics : List Nat)
    (stats0 : ThumbnailStatPSNR)
    (h : pics.length ≠ original_pics.length) :
    animData2PSNR (.ok pics) distortion original_pics false stats0 =
      (Status.kGenericError, stats0) := by
  simp [animData2PSNR, h]

/-- Evaluation of AnimData2PSNR when the distortion loop stops early. -/
theorem animData2PSNR_short (pics : List Nat)
    (distortion : Nat → Nat → Option Rat) (original_pics : List Nat)
    (stats0 : ThumbnailStatPSNR)
    (hlen : pics.length = original_pics.length)
    (hne : (stats0.psnr ++ collectPSNR distortion (original_pics.zip pics)).length ≠
      original_pics.length) :
    animData2PSNR (.ok pics) distortion original_pics false stats0 =
      (Status.kMemoryError,
        { stats0 with
          psnr := stats0.psnr ++ collectPSNR distortion (original_pics.zip pics) }) := by
  have hne2 : stats0.psnr.length +
      (collectPSNR distortion (original_pics.zip pics)).length ≠
        original_pics.length := by
    simpa using hne
  simp [animData2PSNR, hlen, hne2]

/-- Evaluation of AnimData2PSNR on the success path. -/
theorem animData2PSNR_full (pics : List Nat)
    (distortion : Nat → Nat → Option Rat) (original_pics : List Nat)
    (stats0 : ThumbnailStatPSNR)
    (hlen : pics.length = original_pics.length)
    (heq : (stats0.psnr ++ collectPSNR distortion (original_pics.zip pics)).length =
      original_pics.length) :
    animData2PSNR (.ok pics) distortion original_pics false stats0 =
      (Status.kOk,
        { psnr := stats0.psnr ++ collectPSNR distortion (original_pics.zip pics)
          min_psnr := (sortRat (stats0.psnr ++
            collectPSNR distortion (original_pics.zip pics))).headD 0
          max_psnr := (sortRat (stats0.psnr ++
            collectPSNR distortion (original_pics.zip pics))).getLastD 0
          mean_psnr := (sortRat (stats0.psnr ++
            collectPSNR distortion (original_pics.zip pics))).sum /
              (original_pics.length : Rat)
          median_psnr := (sortRat (stats0.psnr ++
            collectPSNR distortion (original_pics.zip pics))).getD
              (original_pics.length / 2) 0 }) := by
  have heq2 : stats0.psnr.length +
      (collectPSNR distortion (original_pics.zip pics)).length =
        original_pics.length := by
    simpa using heq
  simp [animData2PSNR, hlen, heq2]

/-- C9: AnimData2PSNR returns kOk exactly when the animation data decodes,
the decoded frame count equals the original count, and the distortion
computation succeeds on every frame; a frame-count mismatch yields
kGenericError with *stats untouched; a distortion failure stops the
comparison and yields kMemoryError with the summary fields left unassigned;
and only in the kOk case are the summary statistics (min, max, mean and
median of the per-frame PSNR values) written.  The hypothesis `herr`
records that AnimData2Pictures (thumbnailer_util.cc lines 19-55) never
pairs kOk with a failure. -/
theorem animData2PSNR_ok_characterisation (data2pics : Except Status (List Nat))
    (distortion : Nat → Nat → Option Rat) (original_pics : List Nat)
    (stats0 : ThumbnailStatPSNR) (hps : stats0.psnr = [])
    (herr : ∀ e, data2pics = .error e → e ≠ Status.kOk) :
    ((animData2PSNR data2pics distortion original_pics false stats0).1 =
        Status.kOk ↔
      ∃ pics, data2pics = .ok pics ∧ pics.length = original_pics.length ∧
        ∀ pr ∈ original_pics.zip pics, (distortion pr.1 pr.2).isSome) ∧
    (∀ pics, data2pics = .ok pics → pics.length ≠ original_pics.length →
      animData2PSNR data2pics distortion original_pics false stats0 =
        (Status.kGenericError, stats0)) ∧
    (∀ pics, data2pics = .ok pics → pics.length = original_pics.length →
      (∃ pr ∈ original_pics.zip pics, distortion pr.1 pr.2 = none) →
      (animData2PSNR data2pics distortion original_pics false stats0).1 =
          Status.kMemoryError ∧
      (animData2PSNR data2pics distortion original_pics false stats0).2.min_psnr =
          stats0.min_psnr ∧
      (animData2PSNR data2pics distortion original_pics false stats0).2.max_psnr =
          stats0.max_psnr ∧
      (animData2PSNR data2pics distortion original_pics false stats0).2.mean_psnr =
          stats0.mean_psnr ∧
      (animData2PSNR data2pics distortion original_pics false stats0).2.median_psnr =
          stats0.median_psnr) ∧
    ((animData2PSNR data2pics distortion original_pics false stats0).1 =
        Status.kOk → 0 < original_pics.length →
      ((animData2PSNR data2pics distortion original_pics false stats0).2.min_psnr ∈
          (animData2PSNR data2pics distortion original_pics false stats0).2.psnr ∧
        ∀ x ∈ (animData2PSNR data2pics distortion original_pics false stats0).2.psnr,
          (animData2PSNR data2pics distortion original_pics false stats0).2.min_psnr ≤ x) ∧
      ((animData2PSNR data2pics distortion original_pics false stats0).2.max_psnr ∈
          (animData2PSNR data2pics distortion original_pics false stats0).2.psnr ∧
        ∀ x ∈ (animData2PSNR data2pics distortion original_pics false stats0).2.psnr,
          x ≤ (animData2PSNR data2pics distortion original_pics false stats0).2.max_psnr) ∧
      (animData2PSNR data2pics distortion original_pics false stats0).2.mean_psnr =
        (animData2PSNR data2pics distortion original_pics false stats0).2.psnr.sum /
          (original_pics.length : Rat) ∧
      (animData2PSNR data2pics distortion original_pics false stats0).2.median_psnr =
        (sortRat (animData2PSNR data2pics distortion original_pics false stats0).2.psnr).getD
          (original_pics.length / 2) 0) := by
  cases data2pics with
  | error e =>
    have he := herr e rfl
    simp only [animData2PSNR_error]
    refine ⟨?_, ?_, ?_, ?_⟩
    · simp [he]
    · intro pics hcon; exact absurd hcon (by simp)
    · intro pics hcon; exact absurd hcon (by simp)
    · intro hcon _; exact absurd hcon he
  | ok pics =>
    by_cases hlen : pics.length = original_pics.length
    · by_cases hfull : (stats0.psnr ++
          collectPSNR distortion (original_pics.zip pics)).length =
            original_pics.length
      · -- success path
        have hz : (original_pics.zip pics).length = original_pics.length := by
          rw [List.length_zip, hlen, min_self]
        have hcl : (collectPSNR distortion (original_pics.zip pics)).length =
            original_pics.length := by
          simpa [hps] using hfull
        have hall : ∀ pr ∈ original_pics.zip pics, (distortion pr.1 pr.2).isSome :=
          (collectPSNR_length_eq_iff distortion _).mp (by rw [hcl, hz])
        simp only [animData2PSNR_full pics distortion original_pics stats0 hlen hfull]
        refine ⟨?_, ?_, ?_, ?_⟩
        · constructor
          · intro _; exact ⟨pics, rfl, hlen, hall⟩
          · intro _; trivial
        · intro pics2 hp2 hl2
          injection hp2 with hp2
          subst hp2
          exact absurd hlen hl2
        · intro pics2 hp2 _ hex
          injection hp2 with hp2
          subst hp2
          obtain ⟨pr, hpr, hnone⟩ := hex
          have := hall pr hpr
          rw [hnone] at this
          exact absurd this (by simp)
        · intro _ hpos
          have hXne : stats0.psnr ++
              collectPSNR distortion (original_pics.zip pics) ≠ [] := by
            rw [← List.length_pos, hfull]
            exact hpos
          have hperm := sortRat_perm
            (stats0.psnr ++ collectPSNR distortion (original_pics.zip pics))
          have hsorted := sortRat_sorted
            (stats0.psnr ++ collectPSNR distortion (original_pics.zip pics))
          have hSne : sortRat (stats0.psnr ++
              collectPSNR distortion (original_pics.zip pics)) ≠ [] := by
            rw [← List.length_pos, hperm.length_eq, List.length_pos]
            exact hXne
          refine ⟨⟨?_, ?_⟩, ⟨?_, ?_⟩, ?_, trivial⟩
          · exact hperm.mem_iff.mp (headD_mem _ 0 hSne)
          · intro x hx
            exact sorted_headD_le _ hsorted x (hperm.mem_iff.mpr hx)
          · exact hperm.mem_iff.mp (getLastD_mem _ 0 hSne)
          · intro x hx
            exact sorted_le_getLastD _ hsorted x (hperm.mem_iff.mpr hx)
          · rw [hperm.sum_eq]
      · -- distortion loop stopped early
        simp only [animData2PSNR_short pics distortion original_pics stats0 hlen hfull]
        refine ⟨?_, ?_, ?_, ?_⟩
        · constructor
          · intro hcon; exact absurd hcon (by decide)
          · rintro ⟨pics2, hp2, hl2, hall⟩
            injection hp2 with hp2
            subst hp2
            have hz : (original_pics.zip pics).length = original_pics.length := by
              rw [List.length_zip, hlen, min_self]
            have := (collectPSNR_length_eq_iff distortion
              (original_pics.zip pics)).mpr hall
            rw [hz] at this
            exact (hfull (by simpa [hps] using this)).elim
        · intro pics2 hp2 hl2
          injection hp2 with hp2
          subst hp2
          exact absurd hlen hl2
        · intro pics2 hp2 _ _
          exact ⟨trivial, trivial, trivial, trivial, trivial⟩
        · intro hcon; exact absurd hcon (by decide)
    · -- frame-count mismatch
      simp only [animData2PSNR_mismatch pics distortion original_pics stats0 hlen]
      refine ⟨?_, ?_, ?_, ?_⟩
      · constructor
        · intro hcon; exact absurd hcon (by decide)
        · rintro ⟨pics2, hp2, hl2, _⟩
          injection hp2 with hp2
          subst hp2
          exact absurd hl2 hlen
      · intro pics2 hp2 _
        trivial
      · intro pics2 hp2 hl2
        injection hp2 with hp2
        subst hp2
        exact absurd hl2 hlen
      · intro hcon _; exact absurd hcon (by decide)

/-- C9 witness: one original frame, one decoded frame, a total distortion
oracle; the kOk characterisation holds at this input. -/
theorem animData2PSNR_ok_characterisation_witness :
    (animData2PSNR (.ok [7]) (fun a b => some ((a + b : Nat) : Rat)) [1] false
        emptyStatPSNR).1 = Status.kOk ↔
      ∃ pics, (Except.ok [7] : Except Status (List Nat)) = .ok pics ∧
        pics.length = ([1] : List Nat).length ∧
        ∀ pr ∈ ([1] : List Nat).zip pics,
          ((fun a b => some ((a + b : Nat) : Rat)) pr.1 pr.2).isSome :=
  (animData2PSNR_ok_characterisation (.ok [7])
    (fun a b => some ((a + b : Nat) : Rat)) [1] emptyStatPSNR rfl
    (by intro e he; exact absurd he (by simp))).1

/-- C10: with an empty original_pics list, CompareThumbnail returns kOk
immediately: the result is the same whatever the two WebPData decode to
(neither input is read), no field of *diff is written, and even a NULL diff
is accepted since the empty-list check precedes the NULL check. -/
theorem compareThumbnail_empty_list_ok
    (data2pics1 data2pics2 : Except Status (List Nat))
    (distortion : Nat → Nat → Option Rat) (diff_null : Bool)
    (diff0 : ThumbnailDiffPSNR) :
    compareThumbnail data2pics1 data2pics2 distortion [] diff_null diff0 =
      (Status.kOk, diff0) := by
  simp [compareThumbnail]

/-- C8 witness: after adding a 64x64 frame, adding a 32x32 frame is exactly
the mismatch case. -/
theorem addFrame_rejects_dimension_mismatch_witness :
    ((addFrame (runAddFrames [(64, 64, 100)]) 32 32 200).1 =
        Status.kImageFormatError ↔
      ∃ f ∈ runAddFrames [(64, 64, 100)], f.1 ≠ 32 ∨ f.2.1 ≠ 32) ∧
    ((addFrame (runAddFrames [(64, 64, 100)]) 32 32 200).1 = Status.kOk →
      (addFrame (runAddFrames [(64, 64, 100)]) 32 32 200).2 =
        runAddFrames [(64, 64, 100)] ++ [(32, 32, 200)]) ∧
    ((addFrame (runAddFrames [(64, 64, 100)]) 32 32 200).1 =
        Status.kImageFormatError →
      (addFrame (runAddFrames [(64, 64, 100)]) 32 32 200).2 =
        runAddFrames [(64, 64, 100)]) :=
  addFrame_rejects_dimension_mismatch [(64, 64, 100)] 32 32 200

/-- C10 witness: an empty original list with a NULL diff pointer and
unreadable WebPData inputs still yields kOk with the diff untouched. -/
theorem compareThumbnail_empty_list_ok_witness :
    compareThumbnail (.ok [3]) (.error Status.kMemoryError) (fun _ _ => none)
      [] true ⟨[], 0, 0, 0, 0, 0⟩ = (Status.kOk, ⟨[], 0, 0, 0, 0, 0⟩) :=
  compareThumbnail_empty_list_ok (.ok [3]) (.error Status.kMemoryError)
    (fun _ _ => none) true ⟨[], 0, 0, 0, 0, 0⟩
